import Mathlib

/-!
A verification development for the Notes4Me recording / transcription /
summarization pipeline.  The JavaScript services (`recorder.js`,
`transcriber.js`, `fileManager.js`, the summarizer, and the coordinator in
`main.js`) are shallowly embedded: strings are `List Char`, the file system
and the external subprocesses are explicit parameters, and the stateful
recorder is a state-passing function.
-/

namespace Notes4Me

/-! ## Basic string helpers (models of the JS string operations used) -/

/-- Model of the JS `\s` whitespace class restricted to ASCII (space, tab,
newline, carriage return, vertical tab, form feed). -/
def isWS (c : Char) : Bool :=
  c = ' ' || c = '\t' || c = '\n' || c = '\r' || c = Char.ofNat 11 || c = Char.ofNat 12

/-- `startsWith pat l` : does `l` begin with `pat`? -/
def startsWith : List Char → List Char → Bool
  | [], _ => true
  | _ :: _, [] => false
  | p :: ps, c :: cs => p = c && startsWith ps cs

/-- Model of `String.prototype.replace(pat, repl)` with a string pattern:
replaces only the first occurrence, returns the input unchanged when the
pattern does not occur. -/
def replaceFirst (pat repl : List Char) : List Char → List Char
  | [] => if pat = [] then repl else []
  | c :: cs =>
    if startsWith pat (c :: cs) then repl ++ (c :: cs).drop pat.length
    else c :: replaceFirst pat repl cs

/-- Index of the first occurrence of `pat` in `l`, if any. -/
def indexOfPat (pat : List Char) : List Char → Option Nat
  | [] => if pat = [] then some 0 else none
  | c :: cs =>
    if startsWith pat (c :: cs) then some 0
    else (indexOfPat pat cs).map (· + 1)

/-- `endsWithL suf l` : model of `String.prototype.endsWith`. -/
def endsWithL (suf l : List Char) : Bool :=
  startsWith suf.reverse l.reverse

/-- Model of JS `String.prototype.trim` (ASCII whitespace). -/
def trimStr (l : List Char) : List Char :=
  ((l.dropWhile isWS).reverse.dropWhile isWS).reverse

/-- Model of `path.join dir name` for a directory that is nonempty and has
no trailing slash (the only shape produced by this application). -/
def joinPath (dir name : List Char) : List Char :=
  dir ++ '/' :: name

/-- Last path component: model of the component-extraction step of
`path.basename` for paths without trailing slashes. -/
def lastComp (p : List Char) : List Char :=
  (p.reverse.takeWhile (fun c => c ≠ '/')).reverse

/-- Model of `path.basename(p, ext)`: the last component, with `ext`
stripped when it is a proper suffix of that component. -/
def jsBasenameExt (p ext : List Char) : List Char :=
  let b := lastComp p
  if endsWithL ext b ∧ b ≠ ext then b.take (b.length - ext.length) else b

/-- Strict lexicographic order on strings, as JS `<` compares strings. -/
def lexLt : List Char → List Char → Bool
  | [], [] => false
  | [], _ :: _ => true
  | _ :: _, [] => false
  | a :: as, b :: bs => a < b || (a = b && lexLt as bs)

/-! ## TranscriptionJob: the progress marker scanner (`transcriber.js` 118-137)

The stderr handler appends every chunk to the accumulated `stderrData`
buffer and re-runs `stderrData.match(/progress\s*=\s*(\d+)%/)` — a
non-global regex, so `match` always reports the leftmost full match of the
accumulated buffer.  We model the leftmost-match search exactly: at each
start position the regex engine either completes a match (`found`), fails
at a character that later input cannot change (`failHard`), or runs out of
buffer while still inside the pattern (`needMore`, no match reported at
this position yet). -/

/-- Outcome of attempting the progress pattern at one start position. -/
inductive MRes where
  | found : Nat → MRes
  | failHard : MRes
  | needMore : MRes
deriving DecidableEq

/-- Outcome of consuming a literal: rest of input, hard mismatch, or
input exhausted mid-literal. -/
inductive PR where
  | ok : List Char → PR
  | hard : PR
  | more : PR
deriving DecidableEq

/-- Consume a literal from the front of the input. -/
def stripLitR : List Char → List Char → PR
  | [], l => PR.ok l
  | _ :: _, [] => PR.more
  | p :: ps, c :: cs => if p = c then stripLitR ps cs else PR.hard

/-- The literal `progress` of the whisper.cpp progress marker. -/
def litProgress : List Char := ['p', 'r', 'o', 'g', 'r', 'e', 's', 's']

/-- Decimal value of a digit run, as `parseInt` computes it. -/
def digitsVal (ds : List Char) : Nat :=
  ds.foldl (fun a c => a * 10 + (c.toNat - 48)) 0

/-- Stage of the pattern after `progress\s*=`: `\s*(\d+)%` with the digit
run taken greedily (backtracking cannot help: fewer digits put a digit,
not `%`, after the group). -/
def matchAfterEq (l2 : List Char) : MRes :=
  match l2.dropWhile isWS with
  | [] => MRes.needMore
  | c2 :: rest =>
    if c2.isDigit then
      match (c2 :: rest).dropWhile Char.isDigit with
      | [] => MRes.needMore
      | d :: _ =>
        if d = '%' then
          MRes.found (digitsVal ((c2 :: rest).takeWhile Char.isDigit))
        else MRes.failHard
    else MRes.failHard

/-- Stage of the pattern after the literal `progress`: `\s*=` then the
rest. -/
def matchAfterLit (l1 : List Char) : MRes :=
  match l1.dropWhile isWS with
  | [] => MRes.needMore
  | c :: l2 => if c = '=' then matchAfterEq l2 else MRes.failHard

/-- Attempt `progress\s*=\s*(\d+)%` at the head of the buffer.  Greedy
`\s*` / `\d+` runs followed by a mandatory literal make backtracking
irrelevant, so the deterministic scan below is the regex's behaviour. -/
def matchAtR (l : List Char) : MRes :=
  match stripLitR litProgress l with
  | PR.hard => MRes.failHard
  | PR.more => MRes.needMore
  | PR.ok l1 => matchAfterLit l1

/-- Leftmost full match of the progress pattern in the buffer: the value
`stderrData.match(/progress\s*=\s*(\d+)%/)` reports. -/
def firstMatch : List Char → Option Nat
  | [] => none
  | c :: rest =>
    match matchAtR (c :: rest) with
    | MRes.found v => some v
    | _ => firstMatch rest

/-- The mutable state of the stderr handler: the accumulated diagnostic
buffer and `lastProgress` (initialised to 0). -/
structure TrState where
  stderrData : List Char
  lastProgress : Nat
deriving DecidableEq

/-- Initial handler state (`stderrData = ''`, `lastProgress = 0`). -/
def initTrState : TrState := ⟨[], 0⟩

/-- One firing of the stderr `data` handler (`transcriber.js` 122-137):
append the chunk, re-match the whole buffer, and fire the callback when
the matched value differs from `lastProgress`.  The emitted value, if
any, is returned alongside the new state. -/
def onStderrData (s : TrState) (chunk : List Char) : TrState × Option Nat :=
  let buf := s.stderrData ++ chunk
  match firstMatch buf with
  | some p =>
    if p ≠ s.lastProgress then (⟨buf, p⟩, some p)
    else (⟨buf, s.lastProgress⟩, none)
  | none => (⟨buf, s.lastProgress⟩, none)

/-- Run the handler over a list of stderr chunks, collecting every value
delivered to the progress callback, in order. -/
def runChunks : TrState → List (List Char) → List Nat
  | _, [] => []
  | s, c :: cs =>
    match onStderrData s c with
    | (s1, some p) => p :: runChunks s1 cs
    | (s1, none) => runChunks s1 cs

/-- The full sequence of percentage values a transcription run delivers to
the progress callback, as a function of the chunking of the diagnostic
stream. -/
def progressEvents (chunks : List (List Char)) : List Nat :=
  runChunks initTrState chunks

/-- One diagnostic line `progress = 42%` with its newline. -/
def progressLine42 : List Char :=
  ['p', 'r', 'o', 'g', 'r', 'e', 's', 's', ' ', '=', ' ', '4', '2', '%', '\n']

/-! ### Stability of the leftmost match under buffer growth

The accumulated buffer only ever grows at its end.  A completed match is
unaffected by appended text; a hard mismatch stays a hard mismatch; and a
position that ran out of buffer mid-pattern cannot be followed by any
completed match later in the same buffer (the pattern's remainder contains
no second `p`).  Together these give: once `firstMatch` reports a value, it
reports the same value for every longer buffer. -/

theorem stripLitR_ok_eq : ∀ (lit l r : List Char), stripLitR lit l = PR.ok r → l = lit ++ r
  | [], l, r, h => by
    simp only [stripLitR, PR.ok.injEq] at h
    simp [h]
  | _ :: _, [], _, h => by simp [stripLitR] at h
  | p :: ps, c :: cs, r, h => by
    simp only [stripLitR] at h
    by_cases hpc : p = c
    · simp only [hpc, if_pos rfl] at h
      have := stripLitR_ok_eq ps cs r h
      simp [hpc, this]
    · simp [hpc] at h

theorem stripLitR_ok_append : ∀ (lit l r t : List Char),
    stripLitR lit l = PR.ok r → stripLitR lit (l ++ t) = PR.ok (r ++ t)
  | [], l, r, t, h => by
    simp only [stripLitR, PR.ok.injEq] at h
    simp [stripLitR, h]
  | _ :: _, [], _, _, h => by simp [stripLitR] at h
  | p :: ps, c :: cs, r, t, h => by
    simp only [stripLitR] at h
    by_cases hpc : p = c
    · simp only [hpc, if_pos rfl] at h
      simpa [stripLitR, hpc] using stripLitR_ok_append ps cs r t h
    · simp [hpc] at h

theorem stripLitR_hard_append : ∀ (lit l t : List Char),
    stripLitR lit l = PR.hard → stripLitR lit (l ++ t) = PR.hard
  | [], l, t, h => by simp [stripLitR] at h
  | _ :: _, [], _, h => by simp [stripLitR] at h
  | p :: ps, c :: cs, t, h => by
    simp only [stripLitR] at h
    by_cases hpc : p = c
    · simp only [hpc, if_pos rfl] at h
      simpa [stripLitR, hpc] using stripLitR_hard_append ps cs t h
    · simp [stripLitR, hpc]

theorem stripLitR_more_prefix : ∀ (lit l : List Char),
    stripLitR lit l = PR.more → ∃ l2, l ++ l2 = lit
  | [], l, h => by simp [stripLitR] at h
  | p :: ps, [], _ => ⟨p :: ps, rfl⟩
  | p :: ps, c :: cs, h => by
    simp only [stripLitR] at h
    by_cases hpc : p = c
    · simp only [hpc, if_pos rfl] at h
      obtain ⟨l2, hl2⟩ := stripLitR_more_prefix ps cs h
      exact ⟨l2, by simp [hpc, hl2]⟩
    · simp [hpc] at h

theorem dropWhile_cons_append (f : Char → Bool) :
    ∀ (l t r : List Char) (c : Char),
      l.dropWhile f = c :: r → (l ++ t).dropWhile f = c :: (r ++ t)
  | [], _, _, _, h => by simp [List.dropWhile] at h
  | a :: as, t, r, c, h => by
    simp only [List.dropWhile] at h ⊢
    by_cases ha : f a
    · simp only [ha, cond_true] at h ⊢
      exact dropWhile_cons_append f as t r c h
    · simp only [ha, cond_false] at h ⊢
      simp only [List.cons.injEq] at h
      simp [h.1, h.2]

theorem takeWhile_stable_append (f : Char → Bool) :
    ∀ (l t r : List Char) (c : Char),
      l.dropWhile f = c :: r → (l ++ t).takeWhile f = l.takeWhile f
  | [], _, _, _, h => by simp [List.dropWhile] at h
  | a :: as, t, r, c, h => by
    simp only [List.dropWhile] at h
    by_cases ha : f a
    · simp only [ha, cond_true] at h
      simp only [List.cons_append, List.takeWhile_cons, ha]
      rw [takeWhile_stable_append f as t r c h]
    · simp only [ha, cond_false] at h
      simp [List.takeWhile_cons, ha]

theorem matchAfterEq_found_append (l2 t : List Char) (v : Nat)
    (h : matchAfterEq l2 = MRes.found v) : matchAfterEq (l2 ++ t) = MRes.found v := by
  unfold matchAfterEq at h ⊢
  cases hd2 : l2.dropWhile isWS with
  | nil => rw [hd2] at h; exact absurd h (by simp)
  | cons c2 rest =>
    rw [hd2] at h
    rw [dropWhile_cons_append isWS l2 t rest c2 hd2]
    dsimp only at h ⊢
    by_cases hdig : c2.isDigit
    · rw [if_pos hdig] at h ⊢
      cases hd3 : (c2 :: rest).dropWhile Char.isDigit with
      | nil => rw [hd3] at h; exact absurd h (by simp)
      | cons d ds =>
        rw [hd3] at h
        have h4 : (c2 :: (rest ++ t)).dropWhile Char.isDigit = d :: (ds ++ t) :=
          dropWhile_cons_append Char.isDigit (c2 :: rest) t ds d hd3
        rw [h4]
        dsimp only at h ⊢
        by_cases hp : d = '%'
        · rw [if_pos hp] at h ⊢
          have h5 : (c2 :: (rest ++ t)).takeWhile Char.isDigit =
              (c2 :: rest).takeWhile Char.isDigit :=
            takeWhile_stable_append Char.isDigit (c2 :: rest) t ds d hd3
          rw [h5]
          exact h
        · simp [hp] at h
    · simp [hdig] at h

theorem matchAfterEq_hard_append (l2 t : List Char)
    (h : matchAfterEq l2 = MRes.failHard) : matchAfterEq (l2 ++ t) = MRes.failHard := by
  unfold matchAfterEq at h ⊢
  cases hd2 : l2.dropWhile isWS with
  | nil => rw [hd2] at h; exact absurd h (by simp)
  | cons c2 rest =>
    rw [hd2] at h
    rw [dropWhile_cons_append isWS l2 t rest c2 hd2]
    dsimp only at h ⊢
    by_cases hdig : c2.isDigit
    · rw [if_pos hdig] at h ⊢
      cases hd3 : (c2 :: rest).dropWhile Char.isDigit with
      | nil => rw [hd3] at h; exact absurd h (by simp)
      | cons d ds =>
        rw [hd3] at h
        have h4 : (c2 :: (rest ++ t)).dropWhile Char.isDigit = d :: (ds ++ t) :=
          dropWhile_cons_append Char.isDigit (c2 :: rest) t ds d hd3
        rw [h4]
        dsimp only at h ⊢
        by_cases hp : d = '%'
        · simp [hp] at h
        · simp [hp]
    · simp [hdig]

theorem matchAfterLit_found_append (l1 t : List Char) (v : Nat)
    (h : matchAfterLit l1 = MRes.found v) : matchAfterLit (l1 ++ t) = MRes.found v := by
  unfold matchAfterLit at h ⊢
  cases hd : l1.dropWhile isWS with
  | nil => rw [hd] at h; exact absurd h (by simp)
  | cons c l2 =>
    rw [hd] at h
    rw [dropWhile_cons_append isWS l1 t l2 c hd]
    dsimp only at h ⊢
    by_cases hc : c = '='
    · rw [if_pos hc] at h ⊢
      exact matchAfterEq_found_append l2 t v h
    · simp [hc] at h

theorem matchAfterLit_hard_append (l1 t : List Char)
    (h : matchAfterLit l1 = MRes.failHard) : matchAfterLit (l1 ++ t) = MRes.failHard := by
  unfold matchAfterLit at h ⊢
  cases hd : l1.dropWhile isWS with
  | nil => rw [hd] at h; exact absurd h (by simp)
  | cons c l2 =>
    rw [hd] at h
    rw [dropWhile_cons_append isWS l1 t l2 c hd]
    dsimp only at h ⊢
    by_cases hc : c = '='
    · rw [if_pos hc] at h ⊢
      exact matchAfterEq_hard_append l2 t h
    · simp [hc]

theorem matchAtR_found_append (l t : List Char) (v : Nat)
    (h : matchAtR l = MRes.found v) : matchAtR (l ++ t) = MRes.found v := by
  unfold matchAtR at h ⊢
  cases hs : stripLitR litProgress l with
  | hard => rw [hs] at h; exact absurd h (by simp)
  | more => rw [hs] at h; exact absurd h (by simp)
  | ok l1 =>
    rw [hs] at h
    rw [stripLitR_ok_append litProgress l l1 t hs]
    dsimp only at h ⊢
    exact matchAfterLit_found_append l1 t v h

theorem matchAtR_hard_append (l t : List Char)
    (h : matchAtR l = MRes.failHard) : matchAtR (l ++ t) = MRes.failHard := by
  unfold matchAtR at h ⊢
  cases hs : stripLitR litProgress l with
  | hard => rw [stripLitR_hard_append litProgress l t hs]
  | more => rw [hs] at h; exact absurd h (by simp)
  | ok l1 =>
    rw [hs] at h
    rw [stripLitR_ok_append litProgress l l1 t hs]
    dsimp only at h ⊢
    exact matchAfterLit_hard_append l1 t h

/-! A position that exhausted the buffer mid-pattern is followed only by
the residue of `progress`, whitespace, `=` and digits — never by another
`p` — so no completed match can start after it in the same buffer. -/

theorem matchAfterEq_more_no_p (l2 : List Char)
    (h : matchAfterEq l2 = MRes.needMore) : 'p' ∉ l2 := by
  unfold matchAfterEq at h
  intro hp
  cases hd2 : l2.dropWhile isWS with
  | nil =>
    have := List.dropWhile_eq_nil_iff.mp hd2 'p' hp
    exact absurd this (by decide)
  | cons c2 rest =>
    rw [hd2] at h
    dsimp only at h
    by_cases hdig : c2.isDigit
    · rw [if_pos hdig] at h
      cases hd3 : (c2 :: rest).dropWhile Char.isDigit with
      | nil =>
        have hall : ∀ x ∈ c2 :: rest, x.isDigit := List.dropWhile_eq_nil_iff.mp hd3
        have hsplit : l2.takeWhile isWS ++ (c2 :: rest) = l2 := by
          rw [← hd2]; exact List.takeWhile_append_dropWhile isWS l2
        rw [← hsplit] at hp
        rcases List.mem_append.mp hp with hws | hdigmem
        · exact absurd (List.mem_takeWhile_imp hws) (by decide)
        · exact absurd (hall 'p' hdigmem) (by decide)
      | cons d ds =>
        rw [hd3] at h
        dsimp only at h
        by_cases hpct : d = '%'
        · rw [if_pos hpct] at h; exact absurd h (by simp)
        · rw [if_neg hpct] at h; exact absurd h (by simp)
    · rw [if_neg hdig] at h; exact absurd h (by simp)

theorem matchAfterLit_more_no_p (l1 : List Char)
    (h : matchAfterLit l1 = MRes.needMore) : 'p' ∉ l1 := by
  unfold matchAfterLit at h
  intro hp
  cases hd : l1.dropWhile isWS with
  | nil =>
    have := List.dropWhile_eq_nil_iff.mp hd 'p' hp
    exact absurd this (by decide)
  | cons c l2 =>
    rw [hd] at h
    dsimp only at h
    by_cases hc : c = '='
    · rw [if_pos hc] at h
      have hnp := matchAfterEq_more_no_p l2 h
      have hsplit : l1.takeWhile isWS ++ (c :: l2) = l1 := by
        rw [← hd]; exact List.takeWhile_append_dropWhile isWS l1
      rw [← hsplit] at hp
      rcases List.mem_append.mp hp with hws | hrest
      · exact absurd (List.mem_takeWhile_imp hws) (by decide)
      · rcases List.mem_cons.mp hrest with heq | hmem
        · rw [hc] at heq; exact absurd heq (by decide)
        · exact hnp hmem
    · rw [if_neg hc] at h; exact absurd h (by simp)

theorem matchAtR_more_no_p (c : Char) (r : List Char)
    (h : matchAtR (c :: r) = MRes.needMore) : 'p' ∉ r := by
  unfold matchAtR at h
  intro hp
  cases hs : stripLitR litProgress (c :: r) with
  | hard => rw [hs] at h; exact absurd h (by simp)
  | more =>
    obtain ⟨l2, hl2⟩ := stripLitR_more_prefix litProgress (c :: r) hs
    have : r ++ l2 = ['r', 'o', 'g', 'r', 'e', 's', 's'] := by
      have := hl2
      simp only [litProgress, List.cons_append] at this
      exact (List.cons.injEq .. ▸ this).2
    have hmem : 'p' ∈ r ++ l2 := List.mem_append.mpr (Or.inl hp)
    rw [this] at hmem
    exact absurd hmem (by decide)
  | ok l1 =>
    rw [hs] at h
    dsimp only at h
    have heq := stripLitR_ok_eq litProgress (c :: r) l1 hs
    simp only [litProgress, List.cons_append, List.cons.injEq] at heq
    have hr : r = ['r', 'o', 'g', 'r', 'e', 's', 's'] ++ l1 := heq.2
    rw [hr] at hp
    rcases List.mem_append.mp hp with hlit | hl1
    · exact absurd hlit (by decide)
    · exact matchAfterLit_more_no_p l1 h hl1

/-- A buffer with a completed match contains a `p` (every completed match
starts with the literal `progress`). -/
theorem firstMatch_p_mem : ∀ (l : List Char) (v : Nat), firstMatch l = some v → 'p' ∈ l
  | [], v, h => by simp [firstMatch] at h
  | c :: rest, v, h => by
    rw [firstMatch] at h
    cases hm : matchAtR (c :: rest) with
    | found w =>
      unfold matchAtR at hm
      cases hs : stripLitR litProgress (c :: rest) with
      | hard => rw [hs] at hm; exact absurd hm (by simp)
      | more => rw [hs] at hm; exact absurd hm (by simp)
      | ok l1 =>
        have heq := stripLitR_ok_eq litProgress (c :: rest) l1 hs
        simp only [litProgress, List.cons_append, List.cons.injEq] at heq
        rw [heq.1]
        exact List.mem_cons_self 'p' rest
    | failHard =>
      rw [hm] at h
      exact List.mem_cons_of_mem c (firstMatch_p_mem rest v h)
    | needMore =>
      rw [hm] at h
      exact List.mem_cons_of_mem c (firstMatch_p_mem rest v h)

/-- Once the accumulated buffer reports a leftmost match, every extension
of the buffer reports the same match. -/
theorem firstMatch_append : ∀ (l t : List Char) (v : Nat),
    firstMatch l = some v → firstMatch (l ++ t) = some v
  | [], _, v, h => by simp [firstMatch] at h
  | c :: rest, t, v, h => by
    rw [firstMatch] at h
    rw [List.cons_append, firstMatch]
    cases hm : matchAtR (c :: rest) with
    | found w =>
      rw [hm] at h
      have : matchAtR (c :: (rest ++ t)) = MRes.found w := by
        have := matchAtR_found_append (c :: rest) t w hm
        rwa [List.cons_append] at this
      rw [this]
      exact h
    | failHard =>
      rw [hm] at h
      have : matchAtR (c :: (rest ++ t)) = MRes.failHard := by
        have := matchAtR_hard_append (c :: rest) t hm
        rwa [List.cons_append] at this
      rw [this]
      exact firstMatch_append rest t v h
    | needMore =>
      rw [hm] at h
      exact absurd (firstMatch_p_mem rest v h) (matchAtR_more_no_p c rest hm)

/-- Once the buffer's leftmost match equals `lastProgress`, the handler
never fires again: the match is frozen by buffer growth and the
`progress !== lastProgress` test always fails. -/
theorem runChunks_frozen : ∀ (cs : List (List Char)) (s : TrState),
    firstMatch s.stderrData = some s.lastProgress → runChunks s cs = []
  | [], _, _ => rfl
  | c :: cs, s, h => by
    rw [runChunks]
    have hbuf : firstMatch (s.stderrData ++ c) = some s.lastProgress :=
      firstMatch_append s.stderrData c s.lastProgress h
    rw [onStderrData]
    rw [hbuf]
    simp only [ne_eq, not_true_eq_false, reduceIte]
    exact runChunks_frozen cs ⟨s.stderrData ++ c, s.lastProgress⟩ hbuf

/-- From a state whose buffer has no match yet and whose `lastProgress`
is still 0, a run delivers either no value at all or exactly one nonzero
value. -/
theorem runChunks_le_one : ∀ (cs : List (List Char)) (s : TrState),
    s.lastProgress = 0 → firstMatch s.stderrData = none →
    runChunks s cs = [] ∨ ∃ v, v ≠ 0 ∧ runChunks s cs = [v]
  | [], _, _, _ => Or.inl rfl
  | c :: cs, s, hlast, hnone => by
    rw [runChunks, onStderrData]
    cases hbuf : firstMatch (s.stderrData ++ c) with
    | none =>
      exact runChunks_le_one cs ⟨s.stderrData ++ c, s.lastProgress⟩ hlast hbuf
    | some p =>
      by_cases hp : p = s.lastProgress
      · simp only [ne_eq, hp, not_true_eq_false, reduceIte]
        have : firstMatch (s.stderrData ++ c) = some s.lastProgress := hp ▸ hbuf
        rw [runChunks_frozen cs ⟨s.stderrData ++ c, s.lastProgress⟩ this]
        exact Or.inl rfl
      · simp only [ne_eq, hp, not_false_eq_true, reduceIte]
        have : runChunks ⟨s.stderrData ++ c, p⟩ cs = [] :=
          runChunks_frozen cs ⟨s.stderrData ++ c, p⟩ hbuf
        rw [this]
        exact Or.inr ⟨p, by rw [hlast] at hp; exact hp, rfl⟩

/-- Claim C1: for every transcription run (arbitrary chunking of the
diagnostic stream) the sequence of percentage values delivered to the
progress callback is strictly increasing along consecutive values — hence
monotonically non-decreasing with no duplicate consecutive values — the
callback fires at most once per distinct percentage value, and a
diagnostic stream of ten consecutive `progress = 42%` lines produces
exactly one callback, with value 42. -/
theorem transcribe_progress_callback_dedup (chunks : List (List Char)) :
    List.Chain' (· < ·) (progressEvents chunks) ∧
    (∀ v : Nat, (progressEvents chunks).count v ≤ 1) ∧
    progressEvents (List.replicate 10 progressLine42) = [42] := by
  have h := runChunks_le_one chunks initTrState rfl rfl
  refine ⟨?_, ?_, by decide⟩
  · rcases h with h | ⟨v, _, h⟩
    · rw [progressEvents, h]; exact List.chain'_nil
    · rw [progressEvents, h]; exact List.chain'_singleton v
  · intro w
    rcases h with h | ⟨v, _, h⟩
    · rw [progressEvents, h]; simp
    · rw [progressEvents, h]
      by_cases hwv : w = v
      · simp [hwv]
      · simp [List.count_cons, hwv]

/-! ## ArtifactStore: `cleanupOldRecordings` (`fileManager.js` 39-79)

The sweep reads the recordings directory, skips every entry not ending in
`.wav`, and unlinks a `.wav` entry exactly when `now - mtimeMs` exceeds
`retentionDays * MS_PER_DAY`, pushing its name onto the returned array.
A directory entry is a name plus a modification time. -/

/-- One entry of the recordings directory. -/
structure FileEntry where
  name : List Char
  mtimeMs : Int
deriving DecidableEq

/-- `MS_PER_DAY` (`fileManager.js` 5). -/
def msPerDay : Int := 24 * 60 * 60 * 1000

/-- The three filename suffixes of the naming contract. -/
def wavSuffix : List Char := ['.', 'w', 'a', 'v']

/-- Suffix of transcript filenames. -/
def transcriptSuffix : List Char :=
  ['_', 't', 'r', 'a', 'n', 's', 'c', 'r', 'i', 'p', 't', '.', 't', 'x', 't']

/-- Suffix of notes filenames. -/
def notesSuffix : List Char := ['_', 'n', 'o', 't', 'e', 's', '.', 'm', 'd']

/-- Does the sweep's loop body unlink this entry?  (`fileManager.js`
53-69: `.wav` suffix check, then `age > maxAge`.) -/
def cleanupDeletes (now retentionDays : Int) (f : FileEntry) : Bool :=
  endsWithL wavSuffix f.name && decide (now - f.mtimeMs > retentionDays * msPerDay)

/-- Model of `cleanupOldRecordings(baseDir, retentionDays)` on the listed
recordings directory: first component is the surviving directory content,
second is the `deleted` array the function returns (iteration order). -/
def cleanupOldRecordings (files : List FileEntry) (now retentionDays : Int) :
    List FileEntry × List (List Char) :=
  (files.filter (fun f => !cleanupDeletes now retentionDays f),
   (files.filter (cleanupDeletes now retentionDays)).map FileEntry.name)

theorem startsWith_same_head (a b : Char) (as bs l : List Char)
    (ha : startsWith (a :: as) l = true) (hb : startsWith (b :: bs) l = true) : a = b := by
  cases l with
  | nil => simp [startsWith] at ha
  | cons c cs =>
    simp only [startsWith, Bool.and_eq_true, decide_eq_true_eq] at ha hb
    rw [ha.1, hb.1]

/-- A name ending in `_transcript.txt` does not end in `.wav`. -/
theorem transcript_not_wav (n : List Char)
    (h : endsWithL transcriptSuffix n = true) :
    endsWithL wavSuffix n = false := by
  by_contra hw
  rw [Bool.not_eq_false] at hw
  unfold endsWithL at h hw
  rw [show transcriptSuffix.reverse = 't' :: "xt.tpircsnart_".toList from by decide] at h
  rw [show wavSuffix.reverse = 'v' :: "aw.".toList from by decide] at hw
  exact absurd (startsWith_same_head _ _ _ _ _ h hw) (by decide)

/-- A name ending in `_notes.md` does not end in `.wav`. -/
theorem notes_not_wav (n : List Char)
    (h : endsWithL notesSuffix n = true) :
    endsWithL wavSuffix n = false := by
  by_contra hw
  rw [Bool.not_eq_false] at hw
  unfold endsWithL at h hw
  rw [show notesSuffix.reverse = 'd' :: "m.seton_".toList from by decide] at h
  rw [show wavSuffix.reverse = 'v' :: "aw.".toList from by decide] at hw
  exact absurd (startsWith_same_head _ _ _ _ _ h hw) (by decide)

/-- Claim C2: for every retention value `d` in `[1,30]`, the sweep deletes
a `.wav` entry iff its age `now - mtime` exceeds `d` days; entries ending
in `_transcript.txt` or `_notes.md` always survive; and the returned array
is exactly the names of the removed entries, in directory order. -/
theorem cleanup_retention_window (files : List FileEntry) (now d : Int)
    (hd1 : 1 ≤ d) (hd2 : d ≤ 30)
    (hnodup : (files.map FileEntry.name).Nodup) :
    (∀ f ∈ files, endsWithL wavSuffix f.name = true →
      (f.name ∈ (cleanupOldRecordings files now d).2 ↔ now - f.mtimeMs > d * msPerDay)) ∧
    (∀ f ∈ files, endsWithL transcriptSuffix f.name = true →
      f ∈ (cleanupOldRecordings files now d).1) ∧
    (∀ f ∈ files, endsWithL notesSuffix f.name = true →
      f ∈ (cleanupOldRecordings files now d).1) ∧
    (cleanupOldRecordings files now d).2 =
      ((files.filter (cleanupDeletes now d)).map FileEntry.name) := by
  refine ⟨?_, ?_, ?_, rfl⟩
  · intro f hf hwav
    constructor
    · intro hmem
      rcases List.mem_map.mp hmem with ⟨g, hgmem, hgname⟩
      have hg := List.mem_filter.mp hgmem
      have : g = f := by
        have hinj := List.inj_on_of_nodup_map hnodup
        exact hinj hg.1 hf hgname
      rw [← this]
      have hdel := hg.2
      unfold cleanupDeletes at hdel
      simp only [Bool.and_eq_true, decide_eq_true_eq] at hdel
      exact hdel.2
    · intro hage
      refine List.mem_map.mpr ⟨f, List.mem_filter.mpr ⟨hf, ?_⟩, rfl⟩
      unfold cleanupDeletes
      simp [hwav, hage]
  · intro f hf htr
    refine List.mem_filter.mpr ⟨hf, ?_⟩
    unfold cleanupDeletes
    simp [transcript_not_wav f.name htr]
  · intro f hf hnt
    refine List.mem_filter.mpr ⟨hf, ?_⟩
    unfold cleanupDeletes
    simp [notes_not_wav f.name hnt]

/-- Witness for C2 at a concrete directory: a week-old retention window
and an ancient recording, which the sweep reports as deleted. -/
theorem cleanup_retention_window_witness :
    "old_recording.wav".toList ∈
      (cleanupOldRecordings [⟨"old_recording.wav".toList, 0⟩] 1000000000000 7).2 :=
  ((cleanup_retention_window [⟨"old_recording.wav".toList, 0⟩] 1000000000000 7
      (by decide) (by decide) (by decide)).1
    ⟨"old_recording.wav".toList, 0⟩ (by simp) (by decide)).mpr (by decide)

/-! ## Filename derivation (`transcriber.js` 94-147, `fileManager.js` 343)

`transcribe` derives the transcript path as
`path.join(outputDir, 'processed', path.basename(wavPath, '.wav') +
'_transcript') + '.txt'`; `generateNotes` derives the notes path as
`transcriptPath.replace('_transcript.txt', '_notes.md')` (first
occurrence). -/

/-- `_recording.wav` suffix of recording filenames. -/
def recordingSuffix : List Char := "_recording.wav".toList

/-- Transcript path computed by `transcribe` (`transcriber.js` 94-101,
147). -/
def transcriptPathOf (outputDir wavPath : List Char) : List Char :=
  joinPath (joinPath outputDir "processed".toList)
    (jsBasenameExt wavPath ".wav".toList ++ "_transcript".toList) ++ ".txt".toList

/-- Notes path computed by `generateNotes` (`fileManager.js` 343). -/
def notesPathOf (transcriptPath : List Char) : List Char :=
  replaceFirst transcriptSuffix notesSuffix transcriptPath

/-- The transcript path the spec prescribes: `P` with the trailing
`_recording.wav` replaced by `_recording_transcript.txt`, a literal
suffix substitution on the full path.  Stated from the spec's words, for
comparison with `transcriptPathOf`. -/
def specTranscriptPath (p : List Char) : List Char :=
  p.take (p.length - recordingSuffix.length) ++ "_recording_transcript.txt".toList

/-- The notes path the spec prescribes: the transcript path with the
trailing `_transcript.txt` replaced by `_notes.md`, a literal suffix
substitution.  Stated from the spec's words, for comparison with
`notesPathOf`. -/
def specNotesPath (tp : List Char) : List Char :=
  tp.take (tp.length - transcriptSuffix.length) ++ notesSuffix

/-- Counterexample to claim C3 at concrete inputs.  First: with output
directory `/b`, the recording `/b/recordings/a_recording.wav` (which ends
in `_recording.wav`) gets its transcript under `/b/processed/`, not at
the suffix-substituted path `/b/recordings/a_recording_transcript.txt`.
Second: when the output directory itself contains `_transcript.txt`, the
first-occurrence `replace` rewrites the directory name instead of the
trailing suffix, so the notes path is not the suffix substitution. -/
theorem transcript_path_suffix_subst_fails :
    endsWithL recordingSuffix "/b/recordings/a_recording.wav".toList = true ∧
    transcriptPathOf "/b".toList "/b/recordings/a_recording.wav".toList ≠
      specTranscriptPath "/b/recordings/a_recording.wav".toList ∧
    notesPathOf (transcriptPathOf "/a_transcript.txt".toList
        "/a_transcript.txt/recordings/b_recording.wav".toList) ≠
      specNotesPath (transcriptPathOf "/a_transcript.txt".toList
        "/a_transcript.txt/recordings/b_recording.wav".toList) := by
  refine ⟨by decide, by decide, by decide⟩

theorem startsWith_append_self : ∀ (p t : List Char), startsWith p (p ++ t) = true
  | [], _ => rfl
  | c :: cs, t => by simp [startsWith, startsWith_append_self cs t]

theorem startsWith_le_length : ∀ (p l : List Char), startsWith p l = true → p.length ≤ l.length
  | [], _, _ => Nat.zero_le _
  | _ :: _, [], h => by simp [startsWith] at h
  | p :: ps, c :: cs, h => by
    simp only [startsWith, Bool.and_eq_true] at h
    simpa using startsWith_le_length ps cs h.2

/-- `String.prototype.endsWith` holds for an appended suffix. -/
theorem endsWithL_append_self (suf a : List Char) : endsWithL suf (a ++ suf) = true := by
  unfold endsWithL
  rw [List.reverse_append]
  exact startsWith_append_self suf.reverse a.reverse

/-- The last component of a joined path is the joined name, when the name
contains no slash. -/
theorem lastComp_join (dir name : List Char) (h : '/' ∉ name) :
    lastComp (joinPath dir name) = name := by
  unfold lastComp joinPath
  have hrev : (dir ++ '/' :: name).reverse = name.reverse ++ '/' :: dir.reverse := by
    simp
  rw [hrev]
  have hall : ∀ x ∈ name.reverse, (fun c => decide (c ≠ '/')) x = true := by
    intro x hx
    simp only [decide_eq_true_eq]
    intro hx2
    exact h (hx2 ▸ List.mem_reverse.mp hx)
  rw [List.takeWhile_append_of_pos hall]
  simp [List.takeWhile]

/-- `path.basename(p, '.wav')` on a joined `<stem>_recording.wav` name
yields `<stem>_recording`. -/
theorem jsBasenameExt_join (dir stem : List Char) (h : '/' ∉ stem) :
    jsBasenameExt (joinPath dir (stem ++ recordingSuffix)) ".wav".toList =
      stem ++ "_recording".toList := by
  unfold jsBasenameExt
  have hns : '/' ∉ stem ++ recordingSuffix := by
    intro hmem
    rcases List.mem_append.mp hmem with h1 | h2
    · exact h h1
    · exact absurd h2 (by decide)
  rw [lastComp_join dir (stem ++ recordingSuffix) hns]
  have hsplit : stem ++ recordingSuffix = (stem ++ "_recording".toList) ++ ".wav".toList := by
    rw [List.append_assoc]
    rfl
  have hends : endsWithL ".wav".toList (stem ++ recordingSuffix) = true := by
    rw [hsplit]; exact endsWithL_append_self _ _
  have hne : stem ++ recordingSuffix ≠ ".wav".toList := by
    intro heq
    have := congrArg List.length heq
    simp [recordingSuffix, List.length_append] at this
  rw [if_pos ⟨hends, hne⟩]
  rw [hsplit]
  have hlen : ((stem ++ "_recording".toList) ++ ".wav".toList).length - (".wav".toList).length
      = (stem ++ "_recording".toList).length := by
    simp [List.length_append]
  rw [hlen]
  exact List.take_left _ _

/-- First-occurrence replacement, expressed through the match index. -/
theorem replaceFirst_of_index (pat rep : List Char) :
    ∀ (l : List Char) (i : Nat), indexOfPat pat l = some i →
      replaceFirst pat rep l = l.take i ++ rep ++ l.drop (i + pat.length)
  | [], i, h => by
    unfold indexOfPat at h
    by_cases hp : pat = []
    · rw [if_pos hp] at h
      injection h with h
      subst h
      simp [replaceFirst, hp]
    · rw [if_neg hp] at h
      exact absurd h (by simp)
  | c :: cs, i, h => by
    unfold indexOfPat at h
    by_cases hs : startsWith pat (c :: cs) = true
    · rw [if_pos hs] at h
      injection h with h
      subst h
      unfold replaceFirst
      rw [if_pos hs]
      simp
    · rw [if_neg hs] at h
      rcases Option.map_eq_some'.mp h with ⟨j, hj, hij⟩
      subst hij
      unfold replaceFirst
      rw [if_neg hs]
      rw [replaceFirst_of_index pat rep cs j hj]
      simp only [List.take_succ_cons, List.cons_append]
      congr 1
      have : j + 1 + pat.length = (j + pat.length) + 1 := by omega
      rw [this]
      rfl

/-- The index of a reported occurrence carries a real pattern match. -/
theorem indexOfPat_startsWith (pat : List Char) :
    ∀ (l : List Char) (i : Nat), indexOfPat pat l = some i →
      startsWith pat (l.drop i) = true
  | [], i, h => by
    unfold indexOfPat at h
    by_cases hp : pat = []
    · rw [if_pos hp] at h
      injection h with h
      subst h
      simp [hp, startsWith]
    · rw [if_neg hp] at h
      exact absurd h (by simp)
  | c :: cs, i, h => by
    unfold indexOfPat at h
    by_cases hs : startsWith pat (c :: cs) = true
    · rw [if_pos hs] at h
      injection h with h
      subst h
      exact hs
    · rw [if_neg hs] at h
      rcases Option.map_eq_some'.mp h with ⟨j, hj, hij⟩
      subst hij
      exact indexOfPat_startsWith pat cs j hj

/-- Claim C3 as amended: the transcript path for a recording `<dir>/<stem>_recording.wav`
is the `processed` subdirectory of the output directory joined with the
basename's suffix substitution `<stem>_recording_transcript.txt` (the
directory changes from `recordings` to `processed`; the substitution
happens on the basename only); and the notes path is the transcript path
with its trailing `_transcript.txt` replaced by `_notes.md` whenever that
suffix's only occurrence in the path is at the end (the code replaces the
first occurrence). -/
theorem transcript_notes_path_derivation (outputDir dir stem : List Char)
    (hstem : '/' ∉ stem) :
    transcriptPathOf outputDir (joinPath dir (stem ++ recordingSuffix)) =
      joinPath (joinPath outputDir "processed".toList)
        (stem ++ "_recording_transcript.txt".toList) ∧
    (∀ tp : List Char,
      indexOfPat transcriptSuffix tp = some (tp.length - transcriptSuffix.length) →
      notesPathOf tp = specNotesPath tp) := by
  constructor
  · unfold transcriptPathOf
    rw [jsBasenameExt_join dir stem hstem]
    unfold joinPath
    simp only [List.append_assoc, List.cons_append, List.append_cancel_left_eq]
    rfl
  · intro tp hidx
    have hsw := indexOfPat_startsWith transcriptSuffix tp _ hidx
    have hle := startsWith_le_length _ _ hsw
    rw [List.length_drop] at hle
    have hlen15 : transcriptSuffix.length = 15 := by decide
    rw [hlen15] at hle hidx
    have hge : 15 ≤ tp.length := by omega
    unfold notesPathOf specNotesPath
    rw [hlen15]
    rw [replaceFirst_of_index transcriptSuffix notesSuffix tp _ (hlen15 ▸ hidx)]
    rw [hlen15]
    have : tp.length - 15 + 15 = tp.length := by omega
    rw [this, List.drop_length, List.append_nil]

/-- Witness for the amended C3 at a concrete recording. -/
theorem transcript_notes_path_derivation_witness :
    transcriptPathOf "/out".toList
        (joinPath "/out/recordings".toList ("a".toList ++ recordingSuffix)) =
      joinPath (joinPath "/out".toList "processed".toList)
        ("a".toList ++ "_recording_transcript.txt".toList) ∧
    notesPathOf "/out/processed/a_recording_transcript.txt".toList =
      specNotesPath "/out/processed/a_recording_transcript.txt".toList := by
  have h := transcript_notes_path_derivation "/out".toList "/out/recordings".toList
    "a".toList (by decide)
  exact ⟨h.1, h.2 _ (by decide)⟩

/-! ## SummarizationJob: `generateNotes` (summarizer source, `fileManager.js`
concatenation, `generateNotes` at lines 327-451)

The function probes Ollama's health, validates the transcript, streams
`/api/generate`, folds the newline-delimited JSON fragments into an
accumulator, and writes the trimmed accumulator to the derived notes
path.  The environment records what the outside world (file system,
network, service) does during one call. -/

/-- Outcome of the `checkOllamaHealth` probe. -/
inductive HealthState where
  | unreachable
  | reachableNoModels
  | healthy (hasLlama : Bool)
deriving DecidableEq

/-- Error kinds `generateNotes` can surface (§7 of the spec names them
`ServiceUnavailable`, `NoModelsInstalled`, `TranscriptNotFound`,
`EmptyTranscript`, `EmptyGeneration`, `GenerationError`). -/
inductive GenErr where
  | serviceUnavailable
  | noModelsInstalled
  | transcriptNotFound
  | emptyTranscript
  | generateHttpError (status : Nat)
  | emptyGeneration
  | generationError (msg : List Char)
deriving DecidableEq

/-- One parsed stream object: optional `response` fragment, `done` flag,
optional `error` field. -/
structure GenLine where
  response : Option (List Char)
  done : Bool
  error : Option (List Char)
deriving DecidableEq

/-- One newline-delimited line of the streamed body: either it parses as
JSON or `JSON.parse` throws. -/
inductive RawLine where
  | parsed (j : GenLine)
  | malformed
deriving DecidableEq

/-- One iteration of the stream loop (`fileManager.js` 405-428) acting on
the `fullResponse` accumulator.  A malformed line is skipped by the
`catch (parseErr)` handler.  A fragment whose `response` is the empty
string is skipped because `if (json.response)` is false for `''`.  The
`throw new Error('Ollama error: ...')` for a line with an `error` field
(line 419) sits inside the same `try` whose `catch (parseErr)` (line 422)
only logs and continues, so it never leaves the loop: an `error` field
has no effect on the accumulator or on control flow. -/
def processLine (acc : List Char) : RawLine → List Char
  | RawLine.malformed => acc
  | RawLine.parsed j =>
    match j.response with
    | some r => if r ≠ [] then acc ++ r else acc
    | none => acc

/-- Environment of one `generateNotes` call. -/
structure GenEnv where
  health : HealthState
  fileExists : Bool
  content : List Char
  requestOk : Bool
  statusOk : Bool
  status : Nat
  lines : List RawLine
deriving DecidableEq

/-- Model of `generateNotes(transcriptPath)`: first component is the
settled result (notes path or error kind), second the file write it
performed (path and contents), if any. -/
def generateNotes (transcriptPath : List Char) (env : GenEnv) :
    Except GenErr (List Char) × Option (List Char × List Char) :=
  match env.health with
  | HealthState.unreachable => (Except.error GenErr.serviceUnavailable, none)
  | HealthState.reachableNoModels => (Except.error GenErr.noModelsInstalled, none)
  | HealthState.healthy _ =>
    if env.fileExists = false then (Except.error GenErr.transcriptNotFound, none)
    else if trimStr env.content = [] then (Except.error GenErr.emptyTranscript, none)
    else
      let outputPath := notesPathOf transcriptPath
      if env.requestOk = false then (Except.error GenErr.serviceUnavailable, none)
      else if env.statusOk = false then (Except.error (GenErr.generateHttpError env.status), none)
      else
        let fullResponse := env.lines.foldl processLine []
        if trimStr fullResponse = [] then (Except.error GenErr.emptyGeneration, none)
        else (Except.ok outputPath, some (outputPath, trimStr fullResponse))

/-- An all-whitespace string trims to the empty string. -/
theorem trimStr_eq_nil_of_all_ws (l : List Char) (h : ∀ c ∈ l, isWS c = true) :
    trimStr l = [] := by
  unfold trimStr
  rw [List.dropWhile_eq_nil_iff.mpr h]
  rfl

/-- Claim C7: with the generation service healthy, a transcript file whose
content is pure whitespace makes `generateNotes` fail with
`EmptyTranscript`, and no notes file is written. -/
theorem generateNotes_empty_transcript (tp : List Char) (env : GenEnv) (b : Bool)
    (hh : env.health = HealthState.healthy b)
    (hex : env.fileExists = true)
    (hws : ∀ c ∈ env.content, isWS c = true) :
    (generateNotes tp env).1 = Except.error GenErr.emptyTranscript ∧
    (generateNotes tp env).2 = none := by
  unfold generateNotes
  rw [hh]
  dsimp only
  rw [if_neg (by rw [hex]; decide)]
  rw [if_pos (trimStr_eq_nil_of_all_ws env.content hws)]
  exact ⟨rfl, rfl⟩

/-- Witness for C7: a transcript holding two spaces and a newline. -/
theorem generateNotes_empty_transcript_witness :
    (generateNotes "/p/a_transcript.txt".toList
      ⟨HealthState.healthy true, true, " \n ".toList, true, true, 200, []⟩).1 =
      Except.error GenErr.emptyTranscript :=
  (generateNotes_empty_transcript "/p/a_transcript.txt".toList
    ⟨HealthState.healthy true, true, " \n ".toList, true, true, 200, []⟩ true
    rfl rfl (by decide)).1

/-- The concrete call of the C4 analysis: a healthy service streams one
text fragment and then a line carrying an `error` field. -/
def errStreamEnv : GenEnv :=
  ⟨HealthState.healthy true, true, "hello".toList, true, true, 200,
   [RawLine.parsed ⟨some "Hi".toList, false, none⟩,
    RawLine.parsed ⟨none, true, some "boom".toList⟩]⟩

/-- Claim C4 fails on the code: the stream of `errStreamEnv` carries an
in-stream `error` object, yet `generateNotes` resolves successfully with
the notes path (the `throw` at `fileManager.js` 419 is captured by the
`catch (parseErr)` at line 422 and only logged); moreover no call ever
fails with `GenerationError` — that error kind is unreachable. -/
theorem generateNotes_swallows_stream_error :
    (∃ j : GenLine, RawLine.parsed j ∈ errStreamEnv.lines ∧ j.error ≠ none) ∧
    (generateNotes "/p/t_transcript.txt".toList errStreamEnv).1 =
      Except.ok (notesPathOf "/p/t_transcript.txt".toList) ∧
    (∀ (tp : List Char) (env : GenEnv) (msg : List Char),
      (generateNotes tp env).1 ≠ Except.error (GenErr.generationError msg)) := by
  refine ⟨⟨⟨none, true, some "boom".toList⟩, by decide, by decide⟩, by rfl, ?_⟩
  intro tp env msg
  unfold generateNotes
  cases env.health with
  | unreachable => simp
  | reachableNoModels => simp
  | healthy b =>
    dsimp only
    split_ifs <;> simp

/-! ## CaptureSession: the Recorder (`recorder.js`)

`start()` renders the filename timestamp as
`new Date().toISOString().replace(/[:.]/g, '-').replace('T', '_').slice(0, 19)`.
We model `toISOString` as fixed-width decimal rendering of the UTC
calendar fields and embed the two `replace` steps and the `slice`
exactly. -/

/-- Calendar fields of a JS `Date` as `toISOString` renders them (UTC). -/
structure JsDate where
  year : Nat
  month : Nat
  day : Nat
  hour : Nat
  minute : Nat
  second : Nat
  ms : Nat
deriving DecidableEq

/-- The decimal digit character of `k % 10`. -/
def dch (k : Nat) : Char :=
  match k % 10 with
  | 0 => '0' | 1 => '1' | 2 => '2' | 3 => '3' | 4 => '4'
  | 5 => '5' | 6 => '6' | 7 => '7' | 8 => '8' | _ => '9'

/-- Two-digit zero-padded rendering (low two decimal digits). -/
def pad2 (n : Nat) : List Char := [dch (n / 10), dch n]

/-- Three-digit zero-padded rendering. -/
def pad3 (n : Nat) : List Char := dch (n / 100) :: pad2 n

/-- Four-digit zero-padded rendering. -/
def pad4 (n : Nat) : List Char := pad2 (n / 100) ++ pad2 n

/-- Model of `Date.prototype.toISOString`:
`YYYY-MM-DDTHH:MM:SS.sssZ`. -/
def isoString (d : JsDate) : List Char :=
  pad4 d.year ++ '-' :: (pad2 d.month ++ '-' :: (pad2 d.day ++ 'T' ::
    (pad2 d.hour ++ ':' :: (pad2 d.minute ++ ':' ::
      (pad2 d.second ++ '.' :: (pad3 d.ms ++ ['Z']))))))

/-- `replace(/[:.]/g, '-')`: the global single-character class replace. -/
def mapColonDot (c : Char) : Char := if c = ':' || c = '.' then '-' else c

/-- The timestamp token `start()` computes (`recorder.js` 47):
ISO string, `[:.]`→`-` globally, first `T`→`_`, then `slice(0, 19)`. -/
def timestampToken (d : JsDate) : List Char :=
  (replaceFirst ['T'] ['_'] ((isoString d).map mapColonDot)).take 19

/-- The explicit `YYYY-MM-DD_HH-MM-SS` form of the timestamp token. -/
def plainToken (d : JsDate) : List Char :=
  pad4 d.year ++ '-' :: (pad2 d.month ++ '-' :: (pad2 d.day ++ '_' ::
    (pad2 d.hour ++ '-' :: (pad2 d.minute ++ '-' :: pad2 d.second))))

/-- Date fields small enough that every pad is a faithful fixed-width
decimal rendering (real dates satisfy this with room to spare). -/
def renderableDate (d : JsDate) : Prop :=
  d.year < 10000 ∧ d.month < 100 ∧ d.day < 100 ∧
  d.hour < 100 ∧ d.minute < 100 ∧ d.second < 100 ∧ d.ms < 1000

instance (d : JsDate) : Decidable (renderableDate d) := by
  unfold renderableDate
  infer_instance

theorem dch_congr (a b : Nat) (h : a % 10 = b % 10) : dch a = dch b := by
  unfold dch
  rw [h]

theorem dch_digit (k : Nat) : dch k = dch (k % 10) :=
  dch_congr k (k % 10) (by omega)

theorem dch_not_special : ∀ m, m < 10 →
    mapColonDot (dch m) = dch m ∧ dch m ≠ 'T' ∧ dch m ≠ '/' := by decide

/-- Digit characters are untouched by the `[:.]` → `-` replace. -/
theorem mapColonDot_dch (k : Nat) : mapColonDot (dch k) = dch k := by
  rw [dch_digit]
  exact (dch_not_special (k % 10) (by omega)).1

theorem dch_ne_T (k : Nat) : dch k ≠ 'T' := by
  rw [dch_digit]
  exact (dch_not_special (k % 10) (by omega)).2.1

theorem map_mapColonDot_pad2 (n : Nat) : (pad2 n).map mapColonDot = pad2 n := by
  simp [pad2, mapColonDot_dch]

theorem map_mapColonDot_pad3 (n : Nat) : (pad3 n).map mapColonDot = pad3 n := by
  simp [pad3, mapColonDot_dch, map_mapColonDot_pad2]

theorem map_mapColonDot_pad4 (n : Nat) : (pad4 n).map mapColonDot = pad4 n := by
  simp [pad4, map_mapColonDot_pad2]

theorem replaceFirst_T_cons (c : Char) (l : List Char) (h : c ≠ 'T') :
    replaceFirst ['T'] ['_'] (c :: l) = c :: replaceFirst ['T'] ['_'] l := by
  have hs : startsWith ['T'] (c :: l) = false := by
    simp [startsWith]
    intro hc
    exact h hc.symm
  conv_lhs => rw [replaceFirst]
  rw [hs]
  simp

theorem replaceFirst_T_hit (l : List Char) :
    replaceFirst ['T'] ['_'] ('T' :: l) = '_' :: l := by
  unfold replaceFirst
  rw [if_pos (by simp [startsWith])]
  simp

theorem replaceFirst_T_pad2 (n : Nat) (l : List Char) :
    replaceFirst ['T'] ['_'] (pad2 n ++ l) = pad2 n ++ replaceFirst ['T'] ['_'] l := by
  simp only [pad2, List.cons_append, List.nil_append]
  rw [replaceFirst_T_cons _ _ (dch_ne_T _), replaceFirst_T_cons _ _ (dch_ne_T _)]

theorem replaceFirst_T_pad4 (n : Nat) (l : List Char) :
    replaceFirst ['T'] ['_'] (pad4 n ++ l) = pad4 n ++ replaceFirst ['T'] ['_'] l := by
  simp only [pad4, List.append_assoc]
  rw [replaceFirst_T_pad2, replaceFirst_T_pad2]

/-- The token of the code's replace/slice pipeline is exactly the
`YYYY-MM-DD_HH-MM-SS` rendering of the date fields. -/
theorem timestampToken_eq_plainToken (d : JsDate) : timestampToken d = plainToken d := by
  unfold timestampToken
  have hmap : (isoString d).map mapColonDot =
      pad4 d.year ++ '-' :: (pad2 d.month ++ '-' :: (pad2 d.day ++ 'T' ::
        (pad2 d.hour ++ '-' :: (pad2 d.minute ++ '-' ::
          (pad2 d.second ++ '-' :: (pad3 d.ms ++ ['Z'])))))) := by
    have e1 : mapColonDot '-' = '-' := rfl
    have e2 : mapColonDot 'T' = 'T' := rfl
    have e3 : mapColonDot ':' = '-' := rfl
    have e4 : mapColonDot '.' = '-' := rfl
    have e5 : mapColonDot 'Z' = 'Z' := rfl
    simp only [isoString, List.map_append, List.map_cons, List.map_nil,
      map_mapColonDot_pad2, map_mapColonDot_pad3, map_mapColonDot_pad4,
      e1, e2, e3, e4, e5]
  rw [hmap]
  rw [replaceFirst_T_pad4 _ _, replaceFirst_T_cons '-' _ (by decide),
    replaceFirst_T_pad2 _ _, replaceFirst_T_cons '-' _ (by decide),
    replaceFirst_T_pad2 _ _, replaceFirst_T_hit]
  have hassoc :
      pad4 d.year ++ '-' :: (pad2 d.month ++ '-' :: (pad2 d.day ++ '_' ::
        (pad2 d.hour ++ '-' :: (pad2 d.minute ++ '-' ::
          (pad2 d.second ++ '-' :: (pad3 d.ms ++ ['Z'])))))) =
      plainToken d ++ ('-' :: (pad3 d.ms ++ ['Z'])) := by
    simp [plainToken, pad4, pad2, pad3]
  rw [hassoc]
  have hlen : (plainToken d).length = 19 := by
    simp [plainToken, pad4, pad2]
  rw [← hlen]
  exact List.take_left _ _

/-- The rendered token always has exactly 19 characters. -/
theorem plainToken_length (d : JsDate) : (plainToken d).length = 19 := by
  simp [plainToken, pad4, pad2]

/-! ### The token sorts lexicographically in time order -/

theorem dch_mono : ∀ a, a < 10 → ∀ b, b < 10 → a < b → dch a < dch b := by decide

theorem lexLt_cons_lt (a b : Char) (as bs : List Char) (h : a < b) :
    lexLt (a :: as) (b :: bs) = true := by
  simp [lexLt, h]

theorem lexLt_cons_eq (a : Char) (as bs : List Char) :
    lexLt (a :: as) (a :: bs) = lexLt as bs := by
  simp [lexLt, lt_irrefl]

theorem lexLt_append_left : ∀ (x as bs : List Char),
    lexLt (x ++ as) (x ++ bs) = lexLt as bs
  | [], _, _ => rfl
  | c :: x, as, bs => by
    simp only [List.cons_append]
    rw [lexLt_cons_eq]
    exact lexLt_append_left x as bs

theorem lexLt_append_of_lt : ∀ (as bs cs ds : List Char),
    as.length = bs.length → lexLt as bs = true → lexLt (as ++ cs) (bs ++ ds) = true
  | [], [], _, _, _, h => by simp [lexLt] at h
  | [], _ :: _, _, _, hl, _ => by simp at hl
  | _ :: _, [], _, _, hl, _ => by simp at hl
  | a :: as, b :: bs, cs, ds, hl, h => by
    simp only [lexLt, Bool.or_eq_true, Bool.and_eq_true, decide_eq_true_eq] at h
    rcases h with h | ⟨rfl, h⟩
    · exact lexLt_cons_lt _ _ _ _ h
    · simp only [List.cons_append]
      rw [lexLt_cons_eq]
      exact lexLt_append_of_lt as bs cs ds (by simpa using hl) h

theorem pad2_mod (n : Nat) : pad2 (n % 100) = pad2 n := by
  unfold pad2
  rw [dch_congr (n % 100 / 10) (n / 10) (by omega),
    dch_congr (n % 100) n (by omega)]

theorem pad2_length (n : Nat) : (pad2 n).length = 2 := rfl

theorem pad2_mono (m n : Nat) (hm : m < 100) (hlt : m < n) (hn : n < 100) :
    lexLt (pad2 m) (pad2 n) = true := by
  unfold pad2
  by_cases h1 : m / 10 < n / 10
  · exact lexLt_cons_lt _ _ _ _
      (by rw [dch_digit (m / 10), dch_digit (n / 10)]
          exact dch_mono _ (by omega) _ (by omega) (by omega))
  · have hdiv : m / 10 = n / 10 := by omega
    rw [dch_congr (m / 10) (n / 10) (by omega)]
    rw [lexLt_cons_eq]
    exact lexLt_cons_lt _ _ _ _
      (by rw [dch_digit m, dch_digit n]
          exact dch_mono _ (by omega) _ (by omega) (by omega))

theorem pad4_mono (m n : Nat) (hm : m < 10000) (hlt : m < n) (hn : n < 10000) :
    lexLt (pad4 m) (pad4 n) = true := by
  unfold pad4
  by_cases h1 : m / 100 < n / 100
  · exact lexLt_append_of_lt _ _ _ _ (by simp [pad2_length])
      (pad2_mono _ _ (by omega) h1 (by omega))
  · have hdiv : m / 100 = n / 100 := by omega
    rw [hdiv, lexLt_append_left]
    rw [← pad2_mod m, ← pad2_mod n]
    exact pad2_mono _ _ (by omega) (by omega) (by omega)

/-- Chronological order on the second-resolution calendar fields. -/
def timeBefore (a b : JsDate) : Prop :=
  a.year < b.year ∨ (a.year = b.year ∧
    (a.month < b.month ∨ (a.month = b.month ∧
      (a.day < b.day ∨ (a.day = b.day ∧
        (a.hour < b.hour ∨ (a.hour = b.hour ∧
          (a.minute < b.minute ∨ (a.minute = b.minute ∧
            a.second < b.second)))))))))

instance (a b : JsDate) : Decidable (timeBefore a b) := by
  unfold timeBefore
  infer_instance

/-- An earlier timestamp renders to a lexicographically smaller token. -/
theorem plainToken_mono (d1 d2 : JsDate)
    (h1 : renderableDate d1) (h2 : renderableDate d2) (hlt : timeBefore d1 d2) :
    lexLt (plainToken d1) (plainToken d2) = true := by
  obtain ⟨hy1, hmo1, hd1, hh1, hmi1, hs1, -⟩ := h1
  obtain ⟨hy2, hmo2, hd2, hh2, hmi2, hs2, -⟩ := h2
  unfold plainToken
  rcases hlt with hy | ⟨hy, hlt⟩
  · exact lexLt_append_of_lt _ _ _ _ (by simp [pad4, pad2_length]) (pad4_mono _ _ hy1 hy hy2)
  rw [hy, lexLt_append_left, lexLt_cons_eq]
  rcases hlt with hmo | ⟨hmo, hlt⟩
  · exact lexLt_append_of_lt _ _ _ _ (by simp [pad2_length]) (pad2_mono _ _ hmo1 hmo hmo2)
  rw [hmo, lexLt_append_left, lexLt_cons_eq]
  rcases hlt with hd | ⟨hd, hlt⟩
  · exact lexLt_append_of_lt _ _ _ _ (by simp [pad2_length]) (pad2_mono _ _ hd1 hd hd2)
  rw [hd, lexLt_append_left, lexLt_cons_eq]
  rcases hlt with hh | ⟨hh, hlt⟩
  · exact lexLt_append_of_lt _ _ _ _ (by simp [pad2_length]) (pad2_mono _ _ hh1 hh hh2)
  rw [hh, lexLt_append_left, lexLt_cons_eq]
  rcases hlt with hmi | ⟨hmi, hlt⟩
  · exact lexLt_append_of_lt _ _ _ _ (by simp [pad2_length]) (pad2_mono _ _ hmi1 hmi hmi2)
  rw [hmi, lexLt_append_left, lexLt_cons_eq]
  exact pad2_mono _ _ hs1 hlt hs2

/-! ### Recorder state and operations (`recorder.js` 12-219)

The `Recorder` instance state is embedded directly; the environment of a
call records what the outside world does (device detection outcome, file
stats at stop, clock readings).  `liveProcs` counts live capture
subprocesses — it is how "does not spawn a second subprocess" and "at
most one active session" are phrased.  The size-monitor timer is not
modelled: no claim mentions it. -/

/-- Error kinds of the Recorder (spec §7: `AlreadyActive`,
`DeviceNotFound`, `NotRecording`, `EmptyRecording`; plus the two residual
failures `stop()` can surface). -/
inductive RecErr where
  | alreadyActive
  | deviceNotFound
  | notRecording
  | stopKillFailed
  | fileNotCreated
  | emptyRecording
deriving DecidableEq

/-- In-memory state of a `Recorder` instance plus the directory part of
the file system it touches. -/
structure RecState where
  outputDir : List Char
  isRecording : Bool
  hasProc : Bool
  currentFile : Option (List Char)
  startTime : Int
  liveProcs : Nat
  dirs : List (List Char)
deriving DecidableEq

/-- A fresh `Recorder` (constructor, `recorder.js` 18-26) over an empty
directory tree. -/
def initRecState (outputDir : List Char) : RecState :=
  ⟨outputDir, false, false, none, 0, 0, []⟩

/-- Environment of one `start()` call. -/
structure StartEnv where
  now : JsDate
  nowMs : Int
  deviceFound : Bool
deriving DecidableEq

/-- Environment of one `stop()` call: clock at exit, whether
`soxProcess.kill` succeeded, and the output file's stats at exit. -/
structure StopEnv where
  nowMs : Int
  killOk : Bool
  fileExists : Bool
  fileSize : Nat
deriving DecidableEq

/-- Model of `Recorder.start` (`recorder.js` 35-102), in source order:
the `AlreadyActive` guard; `mkdirSync` of the recordings directory if
absent; the timestamped filename assigned to `this.currentFile`; device
detection (throwing leaves the already-performed mutations in place);
the `sox` spawn; `isRecording = true` and `startTime`.  Returns the new
instance state and the call's outcome (`{filepath, startTime}`). -/
def Recorder.start (s : RecState) (env : StartEnv) :
    RecState × Except RecErr (List Char × Int) :=
  if s.isRecording = true then (s, Except.error RecErr.alreadyActive)
  else
    let recordingsDir := joinPath s.outputDir "recordings".toList
    let dirs1 := if recordingsDir ∈ s.dirs then s.dirs else recordingsDir :: s.dirs
    let file := joinPath recordingsDir (timestampToken env.now ++ recordingSuffix)
    let s1 : RecState := { s with dirs := dirs1, currentFile := some file }
    if env.deviceFound = false then (s1, Except.error RecErr.deviceNotFound)
    else
      ({ s1 with isRecording := true, hasProc := true, startTime := env.nowMs,
                 liveProcs := s.liveProcs + 1 },
       Except.ok (file, env.nowMs))

/-- Model of `Recorder.stop` (`recorder.js` 110-156): the `NotRecording`
guard; `kill('SIGTERM')` (a throw rejects with the state untouched);
then the exit handler, which clears `isRecording`, checks existence and
size of the output file, and resolves with `{filepath, duration, size}`. -/
def Recorder.stop (s : RecState) (env : StopEnv) :
    RecState × Except RecErr (List Char × Int × Nat) :=
  if s.isRecording = false ∨ s.hasProc = false then (s, Except.error RecErr.notRecording)
  else if env.killOk = false then (s, Except.error RecErr.stopKillFailed)
  else
    let s1 : RecState := { s with isRecording := false, liveProcs := s.liveProcs - 1 }
    if env.fileExists = false then (s1, Except.error RecErr.fileNotCreated)
    else if env.fileSize = 0 then (s1, Except.error RecErr.emptyRecording)
    else (s1, Except.ok (s.currentFile.getD [], env.nowMs - s.startTime, env.fileSize))

/-- Model of the unexpected-exit handler (`recorder.js` 78-83): the
subprocess died, and the handler clears `isRecording`. -/
def Recorder.procExit (s : RecState) : RecState :=
  { s with isRecording := false, liveProcs := s.liveProcs - 1 }

/-- Model of `Recorder.cleanup` (`recorder.js` 204-219): `SIGKILL` the
subprocess when one is live, clear `isRecording`. -/
def Recorder.cleanup (s : RecState) : RecState :=
  { s with isRecording := false,
           liveProcs := if s.hasProc && s.isRecording then s.liveProcs - 1 else s.liveProcs }

/-- The operations that touch the recorder during a process lifetime. -/
inductive RecOp where
  | opStart (env : StartEnv)
  | opStop (env : StopEnv)
  | opExit
  | opCleanup
deriving DecidableEq

/-- State transition of each operation. -/
def recStep (s : RecState) : RecOp → RecState
  | RecOp.opStart env => (Recorder.start s env).1
  | RecOp.opStop env => (Recorder.stop s env).1
  | RecOp.opExit => Recorder.procExit s
  | RecOp.opCleanup => Recorder.cleanup s

/-- The recorder state after a sequence of operations on a fresh
instance. -/
def runRecOps (outputDir : List Char) (ops : List RecOp) : RecState :=
  ops.foldl recStep (initRecState outputDir)

/-- Reachability invariant: a live subprocess exists exactly while a
session is active, and a session always owns a process handle. -/
def RecInv (s : RecState) : Prop :=
  (s.isRecording = true → s.hasProc = true) ∧
  s.liveProcs = (if s.isRecording = true then 1 else 0)

theorem recInv_init (outputDir : List Char) : RecInv (initRecState outputDir) :=
  ⟨fun h => by simp [initRecState] at h, rfl⟩

theorem recInv_step (s : RecState) (op : RecOp) (h : RecInv s) : RecInv (recStep s op) := by
  obtain ⟨hproc, hlive⟩ := h
  cases op with
  | opStart env =>
    unfold recStep Recorder.start
    dsimp only
    by_cases hrec : s.isRecording = true
    · rw [if_pos hrec]
      exact ⟨hproc, hlive⟩
    · rw [if_neg hrec]
      by_cases hdev : env.deviceFound = false
      · rw [if_pos hdev]
        exact ⟨fun hh => hproc hh, by simpa using hlive⟩
      · rw [if_neg hdev]
        refine ⟨fun _ => rfl, ?_⟩
        simp only [Bool.not_eq_true] at hrec
        simp [hrec] at hlive
        simp [hlive]
  | opStop env =>
    unfold recStep Recorder.stop
    dsimp only
    by_cases hguard : s.isRecording = false ∨ s.hasProc = false
    · rw [if_pos hguard]
      exact ⟨hproc, hlive⟩
    · rw [if_neg hguard]
      push_neg at hguard
      obtain ⟨hrec, -⟩ := hguard
      simp only [Bool.not_eq_false] at hrec
      by_cases hkill : env.killOk = false
      · rw [if_pos hkill]
        exact ⟨hproc, hlive⟩
      · rw [if_neg hkill]
        have hstate : RecInv { s with isRecording := false, liveProcs := s.liveProcs - 1 } := by
          refine ⟨fun hh => by simp at hh, ?_⟩
          simp only [hrec, if_pos rfl] at hlive
          simp [hlive]
        by_cases hex : env.fileExists = false
        · rw [if_pos hex]; exact hstate
        · rw [if_neg hex]
          by_cases hsz : env.fileSize = 0
          · rw [if_pos hsz]; exact hstate
          · rw [if_neg hsz]; exact hstate
  | opExit =>
    unfold recStep Recorder.procExit
    dsimp only
    refine ⟨fun hh => by simp at hh, ?_⟩
    by_cases hrec : s.isRecording = true
    · simp only [hrec, if_pos rfl] at hlive
      simp [hlive]
    · simp only [Bool.not_eq_true] at hrec
      simp [hrec] at hlive
      simp [hlive]
  | opCleanup =>
    unfold recStep Recorder.cleanup
    dsimp only
    refine ⟨fun hh => by simp at hh, ?_⟩
    by_cases hrec : s.isRecording = true
    · simp only [hrec, if_pos rfl] at hlive
      simp [hrec, hproc hrec, hlive]
    · simp only [Bool.not_eq_true] at hrec
      simp [hrec] at hlive
      simp [hrec, hlive]

theorem recInv_run (outputDir : List Char) (ops : List RecOp) :
    RecInv (runRecOps outputDir ops) := by
  unfold runRecOps
  induction ops using List.reverseRecOn with
  | nil => exact recInv_init outputDir
  | append_singleton ops op ih =>
    rw [List.foldl_append, List.foldl_cons, List.foldl_nil]
    exact recInv_step _ op ih

/-- Model of the coordinator's stop handler (`main.js` 379-407): await
`recorder.stop()`; on success and with auto-process enabled, hand the
recorded file to `processRecording` (the transcript/notes pipeline); on
failure only log.  The second component is the file handed to the
pipeline, if any. -/
def handleStopRecording (s : RecState) (env : StopEnv) (autoProcess : Bool) :
    RecState × Option (List Char) :=
  match Recorder.stop s env with
  | (s1, Except.ok out) => (s1, if autoProcess then some out.1 else none)
  | (s1, Except.error _) => (s1, none)

/-- Claim C5: while a session is active, a further `start()` fails with
`AlreadyActive`, changes nothing (in particular spawns no second capture
subprocess), and — across every operation sequence on a fresh recorder —
at most one capture subprocess is ever live. -/
theorem start_already_active (s : RecState) (env : StartEnv)
    (h : s.isRecording = true) :
    (Recorder.start s env).2 = Except.error RecErr.alreadyActive ∧
    (Recorder.start s env).1 = s ∧
    (∀ (outputDir : List Char) (ops : List RecOp), (runRecOps outputDir ops).liveProcs ≤ 1) := by
  refine ⟨?_, ?_, ?_⟩
  · unfold Recorder.start
    rw [if_pos h]
  · unfold Recorder.start
    rw [if_pos h]
  · intro outputDir ops
    have hinv := (recInv_run outputDir ops).2
    rw [hinv]
    by_cases hrec : (runRecOps outputDir ops).isRecording = true <;> simp [hrec]

/-- Witness for C5: a second `start()` on the state reached by a
successful `start()` is rejected with `AlreadyActive`. -/
theorem start_already_active_witness :
    ((Recorder.start
        (Recorder.start (initRecState "/o".toList) ⟨⟨2024, 1, 2, 3, 4, 5, 6⟩, 0, true⟩).1
        ⟨⟨2024, 1, 2, 3, 4, 6, 0⟩, 1000, true⟩).2 = Except.error RecErr.alreadyActive) :=
  (start_already_active
    (Recorder.start (initRecState "/o".toList) ⟨⟨2024, 1, 2, 3, 4, 5, 6⟩, 0, true⟩).1
    ⟨⟨2024, 1, 2, 3, 4, 6, 0⟩, 1000, true⟩ (by rfl)).1

/-- Claim C8: `stop()` with no active session — a fresh recorder, or one
whose session has ended — always fails with `NotRecording` and changes
nothing; and any `stop()` that passes the guard leaves the session
inactive, so a repeated `stop()` hits this same failure. -/
theorem stop_not_recording (s : RecState) (env : StopEnv)
    (h : s.isRecording = false) :
    (Recorder.stop s env).2 = Except.error RecErr.notRecording ∧
    (Recorder.stop s env).1 = s ∧
    (∀ (s2 : RecState) (env2 : StopEnv), s2.isRecording = true → s2.hasProc = true →
      env2.killOk = true → ((Recorder.stop s2 env2).1).isRecording = false) := by
  refine ⟨?_, ?_, ?_⟩
  · unfold Recorder.stop
    rw [if_pos (Or.inl h)]
  · unfold Recorder.stop
    rw [if_pos (Or.inl h)]
  · intro s2 env2 hrec hproc hkill
    unfold Recorder.stop
    rw [if_neg (by simp [hrec, hproc])]
    rw [if_neg (by simp [hkill])]
    dsimp only
    by_cases hex : env2.fileExists = false
    · rw [if_pos hex]
    · rw [if_neg hex]
      by_cases hsz : env2.fileSize = 0
      · rw [if_pos hsz]
      · rw [if_neg hsz]

/-- Witness for C8: `stop()` on a fresh recorder. -/
theorem stop_not_recording_witness :
    (Recorder.stop (initRecState "/o".toList) ⟨0, true, true, 5⟩).2 =
      Except.error RecErr.notRecording :=
  (stop_not_recording (initRecState "/o".toList) ⟨0, true, true, 5⟩ rfl).1

/-- Claim C6: when the capture subprocess exits leaving an existing but
zero-byte file, `stop()` fails with `EmptyRecording`, and the
coordinator's stop handler triggers no transcription/notes pipeline,
whatever the auto-process setting. -/
theorem stop_empty_recording (s : RecState) (env : StopEnv)
    (hrec : s.isRecording = true) (hproc : s.hasProc = true)
    (hkill : env.killOk = true) (hex : env.fileExists = true) (hsz : env.fileSize = 0) :
    (Recorder.stop s env).2 = Except.error RecErr.emptyRecording ∧
    (∀ autoProcess : Bool, (handleStopRecording s env autoProcess).2 = none) := by
  have hstop : Recorder.stop s env =
      ({ s with isRecording := false, liveProcs := s.liveProcs - 1 },
       Except.error RecErr.emptyRecording) := by
    unfold Recorder.stop
    rw [if_neg (by simp [hrec, hproc])]
    rw [if_neg (by simp [hkill])]
    dsimp only
    rw [if_neg (by simp [hex])]
    rw [if_pos hsz]
  constructor
  · rw [hstop]
  · intro autoProcess
    unfold handleStopRecording
    rw [hstop]

/-- Witness for C6: a session stopped over an empty file. -/
theorem stop_empty_recording_witness :
    (Recorder.stop
      (Recorder.start (initRecState "/o".toList) ⟨⟨2024, 1, 2, 3, 4, 5, 6⟩, 0, true⟩).1
      ⟨900, true, true, 0⟩).2 = Except.error RecErr.emptyRecording :=
  (stop_empty_recording
    (Recorder.start (initRecState "/o".toList) ⟨⟨2024, 1, 2, 3, 4, 5, 6⟩, 0, true⟩).1
    ⟨900, true, true, 0⟩ rfl rfl rfl rfl rfl).1

/-- Claim C9: the filename `start()` generates is the 19-character
`YYYY-MM-DD_HH-MM-SS` token followed by the literal `_recording.wav`,
placed under the `recordings` subdirectory, which is present in the file
system afterwards (created when absent); the token sorts
lexicographically in chronological order; and on success the returned
filepath is that generated name. -/
theorem start_filename_format (s : RecState) (env : StartEnv)
    (hrec : s.isRecording = false) (hval : renderableDate env.now) :
    ((Recorder.start s env).1).currentFile =
      some (joinPath (joinPath s.outputDir "recordings".toList)
        (plainToken env.now ++ recordingSuffix)) ∧
    (plainToken env.now).length = 19 ∧
    joinPath s.outputDir "recordings".toList ∈ ((Recorder.start s env).1).dirs ∧
    (env.deviceFound = true →
      (Recorder.start s env).2 =
        Except.ok (joinPath (joinPath s.outputDir "recordings".toList)
          (plainToken env.now ++ recordingSuffix), env.nowMs)) ∧
    (∀ d1 d2 : JsDate, renderableDate d1 → renderableDate d2 → timeBefore d1 d2 →
      lexLt (plainToken d1) (plainToken d2) = true) := by
  have hstart : Recorder.start s env =
      (let recordingsDir := joinPath s.outputDir "recordings".toList
       let dirs1 := if recordingsDir ∈ s.dirs then s.dirs else recordingsDir :: s.dirs
       let file := joinPath recordingsDir (plainToken env.now ++ recordingSuffix)
       let s1 : RecState := { s with dirs := dirs1, currentFile := some file }
       if env.deviceFound = false then (s1, Except.error RecErr.deviceNotFound)
       else
         ({ s1 with isRecording := true, hasProc := true, startTime := env.nowMs,
                    liveProcs := s.liveProcs + 1 },
          Except.ok (file, env.nowMs))) := by
    unfold Recorder.start
    rw [if_neg (by simp [hrec])]
    rw [timestampToken_eq_plainToken]
  have hdirs1 : joinPath s.outputDir "recordings".toList ∈
      (if joinPath s.outputDir "recordings".toList ∈ s.dirs then s.dirs
       else joinPath s.outputDir "recordings".toList :: s.dirs) := by
    by_cases hmem : joinPath s.outputDir "recordings".toList ∈ s.dirs
    · rw [if_pos hmem]; exact hmem
    · rw [if_neg hmem]; exact List.mem_cons_self _ _
  refine ⟨?_, plainToken_length env.now, ?_, ?_, plainToken_mono⟩
  · rw [hstart]
    dsimp only
    by_cases hdev : env.deviceFound = false
    · rw [if_pos hdev]
    · rw [if_neg hdev]
  · rw [hstart]
    dsimp only
    by_cases hdev : env.deviceFound = false
    · rw [if_pos hdev]
      exact hdirs1
    · rw [if_neg hdev]
      exact hdirs1
  · intro hdev
    rw [hstart]
    dsimp only
    rw [if_neg (by simp [hdev])]

/-- Witness for C9: a concrete start on a fresh recorder, including the
lexicographic comparison of two concrete timestamps. -/
theorem start_filename_format_witness :
    ((Recorder.start (initRecState "/o".toList) ⟨⟨2024, 3, 9, 23, 59, 58, 123⟩, 7, true⟩).1).currentFile =
      some "/o/recordings/2024-03-09_23-59-58_recording.wav".toList ∧
    lexLt (plainToken ⟨2024, 3, 9, 23, 59, 58, 0⟩) (plainToken ⟨2024, 3, 10, 0, 0, 0, 0⟩) = true := by
  have h := start_filename_format (initRecState "/o".toList)
    ⟨⟨2024, 3, 9, 23, 59, 58, 123⟩, 7, true⟩ rfl (by decide)
  refine ⟨?_, ?_⟩
  · rw [h.1]
    decide
  · exact h.2.2.2.2 ⟨2024, 3, 9, 23, 59, 58, 0⟩ ⟨2024, 3, 10, 0, 0, 0, 0⟩
      (by decide) (by decide) (by decide)

/-- Claim C10: when `start()` fails because device detection throws, the
active flag is untouched (`isRecording` stays false), no capture
subprocess is spawned, and a subsequent `start()` passes the
`AlreadyActive` guard (it can only fail with `DeviceNotFound` again). -/
theorem start_device_failure_keeps_inactive (s : RecState) (env : StartEnv)
    (hrec : s.isRecording = false) (hdev : env.deviceFound = false) :
    (Recorder.start s env).2 = Except.error RecErr.deviceNotFound ∧
    ((Recorder.start s env).1).isRecording = false ∧
    ((Recorder.start s env).1).liveProcs = s.liveProcs ∧
    (∀ env2 : StartEnv,
      (Recorder.start (Recorder.start s env).1 env2).2 ≠ Except.error RecErr.alreadyActive) := by
  have hstart : Recorder.start s env =
      ({ s with dirs := if joinPath s.outputDir "recordings".toList ∈ s.dirs then s.dirs
                        else joinPath s.outputDir "recordings".toList :: s.dirs,
                currentFile := some (joinPath (joinPath s.outputDir "recordings".toList)
                  (timestampToken env.now ++ recordingSuffix)) },
       Except.error RecErr.deviceNotFound) := by
    unfold Recorder.start
    rw [if_neg (by simp [hrec])]
    dsimp only
    rw [if_pos hdev]
  refine ⟨by rw [hstart], by rw [hstart]; exact hrec, by rw [hstart], ?_⟩
  intro env2
  rw [hstart]
  unfold Recorder.start
  rw [if_neg (by simp [hrec])]
  dsimp only
  by_cases hdev2 : env2.deviceFound = false
  · rw [if_pos hdev2]
    simp
  · rw [if_neg hdev2]
    simp

/-- Witness for C10: device detection fails on a fresh recorder; the
retry is not rejected with `AlreadyActive`. -/
theorem start_device_failure_keeps_inactive_witness :
    ((Recorder.start (initRecState "/o".toList) ⟨⟨2024, 1, 2, 3, 4, 5, 6⟩, 0, false⟩).1).isRecording
      = false :=
  (start_device_failure_keeps_inactive (initRecState "/o".toList)
    ⟨⟨2024, 1, 2, 3, 4, 5, 6⟩, 0, false⟩ rfl rfl).2.1

end Notes4Me
